import Mathlib

/-!
Shallow embedding of the uniswap-v3-liquidity-edge-market-maker pipeline.
Floats are modelled as rationals (ℚ): the float-specific values NaN and
infinity have no representative, so `math.isnan`/`math.isinf` checks are
vacuously false in the model.  Python dicts holding position/bin records
are modelled as structures whose possibly-absent keys are `Option` fields.
-/

namespace UniswapLEMM

/-! ### outlier_service.py constants -/

def MIN_REASONABLE_PRICE : ℚ := 100
def MAX_REASONABLE_PRICE : ℚ := 100000
def MAX_WETH : ℚ := 10 ^ 6
def MAX_USDT : ℚ := 10 ^ 12
def MIN_PRICE_THRESHOLD : ℚ := 1 / 10 ^ 10
def MAX_PRICE_THRESHOLD : ℚ := 10 ^ 10

/-- A position record as consumed by `outlier_service` / `bin_service`
(the summary dicts carry these keys; absent keys are `none`). -/
structure Position where
  price_lower_afterdecimals : Option ℚ := none
  price_upper_afterdecimals : Option ℚ := none
  amount_weth : Option ℚ := none
  amount_usdt : Option ℚ := none
  nft_id : Option ℤ := none
  create_time : Option String := none
  number_of_positions : Option ℕ := none
deriving DecidableEq, Repr

/-- Model of `outlier_service.validate_amounts` (NaN/inf unrepresentable in ℚ). -/
def validate_amounts (amount_weth : Option ℚ) (amount_usdt : Option ℚ) : Bool :=
  (match amount_weth with
   | some w => if w < 0 ∨ w > MAX_WETH then false else true
   | none => true) &&
  (match amount_usdt with
   | some u => if u < 0 ∨ u > MAX_USDT then false else true
   | none => true)

/-- Model of `outlier_service.validate_position_prices`. -/
def validate_position_prices (position : Position)
    (min_reasonable : ℚ := MIN_REASONABLE_PRICE)
    (max_reasonable : ℚ := MAX_REASONABLE_PRICE) : Bool :=
  match position.price_lower_afterdecimals, position.price_upper_afterdecimals with
  | some price_lower, some price_upper =>
    if price_lower < min_reasonable ∨ price_upper > max_reasonable then false
    else if price_lower ≥ price_upper then false
    else if price_lower < MIN_PRICE_THRESHOLD ∨ price_upper > MAX_PRICE_THRESHOLD then false
    else validate_amounts position.amount_weth position.amount_usdt
  | _, _ => false

/-- Model of `outlier_service.filter_valid_positions` (appends in input order, so the
two partitions are the two filters). -/
def filter_valid_positions (positions : List Position)
    (min_reasonable : ℚ := MIN_REASONABLE_PRICE)
    (max_reasonable : ℚ := MAX_REASONABLE_PRICE) :
    List Position × List Position :=
  (positions.filter (fun p => validate_position_prices p min_reasonable max_reasonable),
   positions.filter (fun p => ¬ validate_position_prices p min_reasonable max_reasonable))

/-- Stable insertion into an ascending list (model of Python `list.sort()`). -/
def insertAsc (x : ℚ) : List ℚ → List ℚ
  | [] => [x]
  | h :: t => if x ≤ h then x :: h :: t else h :: insertAsc x t

/-- Ascending sort, model of Python `list.sort()` on floats. -/
def sortAsc : List ℚ → List ℚ
  | [] => []
  | h :: t => insertAsc h (sortAsc t)

/-- Python `min` over a nonempty list ([] mapped to 0; never reached). -/
def listMin : List ℚ → ℚ
  | [] => 0
  | h :: t => t.foldl min h

/-- Python `max` over a nonempty list ([] mapped to 0; never reached). -/
def listMax : List ℚ → ℚ
  | [] => 0
  | h :: t => t.foldl max h

/-- The collection loop of `find_price_range`: present, positive lower
bounds, in input order. -/
def present_positive_lowers (positions : List Position) : List ℚ :=
  positions.filterMap fun p =>
    match p.price_lower_afterdecimals with
    | some x => if x > 0 then some x else none
    | none => none

/-- The collection loop of `find_price_range`: present, positive upper
bounds, in input order. -/
def present_positive_uppers (positions : List Position) : List ℚ :=
  positions.filterMap fun p =>
    match p.price_upper_afterdecimals with
    | some x => if x > 0 then some x else none
    | none => none

/-- Model of `outlier_service.find_price_range`.  `int(n * 0.05)` and `int(n * 0.95)`
are the floors `n / 20` and `19 * n / 20` (natural division). -/
def find_price_range (positions : List Position) : Except String (ℚ × ℚ) :=
  let all_lowers := present_positive_lowers positions
  let all_uppers := present_positive_uppers positions
  if all_lowers = [] ∨ all_uppers = [] then
    .error "No valid price data found in positions"
  else
    let sl := sortAsc all_lowers
    let su := sortAsc all_uppers
    let lower_percentile_idx := sl.length / 20
    let upper_percentile_idx := min (su.length - 1) (19 * su.length / 20)
    let min_price := sl.getD lower_percentile_idx 0
    let max_price := su.getD upper_percentile_idx 0
    if min_price < MIN_PRICE_THRESHOLD ∨ max_price > MAX_PRICE_THRESHOLD then
      let median_lower := sl.getD (sl.length / 2) 0
      let median_upper := su.getD (su.length / 2) 0
      if median_lower ≥ MIN_PRICE_THRESHOLD ∧ median_upper ≤ MAX_PRICE_THRESHOLD then
        .ok (median_lower, median_upper)
      else
        let reasonable_lowers := all_lowers.filter fun p =>
          MIN_PRICE_THRESHOLD ≤ p ∧ p ≤ MAX_PRICE_THRESHOLD
        let reasonable_uppers := all_uppers.filter fun p =>
          MIN_PRICE_THRESHOLD ≤ p ∧ p ≤ MAX_PRICE_THRESHOLD
        if reasonable_lowers ≠ [] ∧ reasonable_uppers ≠ [] then
          .ok (listMin reasonable_lowers, listMax reasonable_uppers)
        else
          .error "No reasonable price range found in positions"
    else
      .ok (min_price, max_price)

/-! ### bin_service.py -/

def NUM_BINS : ℕ := 50

/-- A bin record (`bin_service.create_bins` output shape). -/
structure Bin where
  bin_index : ℕ
  priceLower : ℚ
  priceUpper : ℚ
  amount_weth : ℚ
  amount_usdt : ℚ
  count_nfts : ℕ
deriving DecidableEq, Repr

/-- Model of `bin_service.create_bins`. -/
def create_bins (min_price max_price : ℚ) (num_bins : ℕ := NUM_BINS) :
    Except String (List Bin) :=
  if min_price ≥ max_price then .error "min_price must be less than max_price"
  else
    let bin_size := (max_price - min_price) / num_bins
    .ok ((List.range num_bins).map fun i =>
      { bin_index := i
        priceLower := min_price + i * bin_size
        priceUpper := min_price + (i + 1) * bin_size
        amount_weth := 0
        amount_usdt := 0
        count_nfts := 0 })

/-- Model of `bin_service.calculate_overlap`. -/
def calculate_overlap (position_lower position_upper bin_lower bin_upper : ℚ) : ℚ :=
  let overlap_lower := max position_lower bin_lower
  let overlap_upper := min position_upper bin_upper
  if overlap_lower ≥ overlap_upper then 0 else overlap_upper - overlap_lower

/-- Model of `bin_service.distribute_position_to_bins` (in-place mutation of the bin
dicts modelled as returning the updated list). -/
def distribute_position_to_bins (position : Position) (bins : List Bin) : List Bin :=
  match position.price_lower_afterdecimals, position.price_upper_afterdecimals with
  | some position_lower, some position_upper =>
    let amount_weth := position.amount_weth.getD 0
    let amount_usdt := position.amount_usdt.getD 0
    let overlapping_bins := bins.filter fun b =>
      calculate_overlap position_lower position_upper b.priceLower b.priceUpper > 0
    let total_overlap := (overlapping_bins.map fun b =>
      calculate_overlap position_lower position_upper b.priceLower b.priceUpper).sum
    if total_overlap = 0 ∨ overlapping_bins = [] then bins
    else
      let position_range := position_upper - position_lower
      if position_range = 0 then bins
      else
        bins.map fun b =>
          let overlap := calculate_overlap position_lower position_upper b.priceLower b.priceUpper
          if overlap > 0 then
            { b with
              amount_weth := b.amount_weth + amount_weth * (overlap / position_range)
              amount_usdt := b.amount_usdt + amount_usdt * (overlap / position_range)
              count_nfts := b.count_nfts + 1 }
          else b
  | _, _ => bins

/-- Model of `bin_service.create_bins_from_data`.  (The `float('inf')` re-check after
`find_price_range` cannot trigger in the rational model and is omitted.) -/
def create_bins_from_data (positions : List Position) (num_bins : ℕ := NUM_BINS)
    (min_reasonable : ℚ := MIN_REASONABLE_PRICE)
    (max_reasonable : ℚ := MAX_REASONABLE_PRICE) : Except String (List Bin) :=
  if positions = [] then .error "No positions provided"
  else
    let valid_positions := (filter_valid_positions positions min_reasonable max_reasonable).1
    if valid_positions = [] then .error "No valid positions after filtering"
    else
      match find_price_range valid_positions with
      | .error e => .error e
      | .ok (min_price, max_price) =>
        match create_bins min_price max_price num_bins with
        | .error e => .error e
        | .ok bins =>
          .ok (valid_positions.foldl (fun bs p => distribute_position_to_bins p bs) bins)

/-! ### parser.py -/

def WETH_ADDRESS : String := "0xc02aaa39b223fe8d0a0e5c4f27ead9083c756cc2"
def USDT_ADDRESS : String := "0xdac17f958d2ee523a2206206994597c13d831ec7"
def WETH_DECIMALS : ℕ := 18
def USDT_DECIMALS : ℕ := 6

/-- ASCII lowercasing by a structural char map (Python `str.lower()` on
the ASCII strings this pipeline compares). -/
def str_to_lower (s : String) : String := ⟨s.data.map Char.toLower⟩

/-- Model of `parser.normalize_address` (`address.lower() if address else ""`;
the empty string is falsy in Python and lowercases to itself). -/
def normalize_address (address : String) : String := str_to_lower address

/-- Model of `parser.calculate_price_from_tick`: `1.0001 ** tick`. -/
def calculate_price_from_tick (tick : ℤ) : ℚ := (10001 / 10000 : ℚ) ^ tick

/-- Model of `parser.calculate_price_with_decimals`. -/
def calculate_price_with_decimals (tick : ℤ) (decimal0 decimal1 : ℕ) : ℚ :=
  calculate_price_from_tick tick / (10 : ℚ) ^ ((decimal1 : ℤ) - (decimal0 : ℤ))

/-- The `Value` object of an argument/return entry: it either carries an
`address` key, a `bigInteger` key, or neither. -/
inductive CallValue where
  | address (a : String)
  | bigInteger (n : ℤ)
  | other
deriving DecidableEq, Repr

/-- One entry of a call's `Arguments` list. -/
structure CallArg where
  index : Option ℕ := none
  value : CallValue := .other
deriving DecidableEq, Repr

/-- One entry of a call's `Returns` list (`ret.get("Name", "")`). -/
structure CallRet where
  name : String := ""
  value : CallValue := .other
deriving DecidableEq, Repr

/-- A raw mint call record from the upstream response. -/
structure RawCall where
  arguments : List CallArg := []
  returns : List CallRet := []
  blockTime : Option String := none
  txTime : Option String := none
deriving DecidableEq, Repr

/-- The record `parser.extract_position_data` builds on success. -/
structure MintPosition where
  nft_id : ℤ
  tick_lower : ℤ
  tick_upper : ℤ
  timestamp : String
  token0 : Option String
  token1 : Option String
  price_lower : ℚ
  price_upper : ℚ
  price_lower_afterdecimals : ℚ
  price_upper_afterdecimals : ℚ
  amount0 : Option ℤ
  amount1 : Option ℤ
  amount0_afterdecimals : Option ℚ
  amount1_afterdecimals : Option ℚ
  amount_weth : Option ℚ
  amount_usdt : Option ℚ
deriving DecidableEq, Repr

/-- The positional-index fallback of the return-value lookups: if the entry
at index `i` carries a `bigInteger`, it overwrites `cur`, else `cur` stays. -/
def ret_bigInteger_at (returns : List CallRet) (i : ℕ) (cur : Option ℤ) : Option ℤ :=
  match returns[i]? with
  | some r => match r.value with | .bigInteger n => some n | _ => cur
  | none => cur

/-- The token-address loop over `arguments[:2]` of `extract_position_data`. -/
def mint_tokens (arguments : List CallArg) : Option String × Option String :=
  (arguments.take 2).foldl
    (fun (t : Option String × Option String) arg =>
      match arg.index, arg.value with
      | some 0, .address a => (some (normalize_address a), t.2)
      | some 1, .address a => (t.1, some (normalize_address a))
      | _, _ => t)
    ((none, none) : Option String × Option String)

/-- The tick loop of `extract_position_data` (Index 3 and Index 4). -/
def mint_ticks (arguments : List CallArg) : Option ℤ × Option ℤ :=
  arguments.foldl
    (fun (t : Option ℤ × Option ℤ) arg =>
      match arg.index, arg.value with
      | some 3, .bigInteger n => (some n, t.2)
      | some 4, .bigInteger n => (t.1, some n)
      | _, _ => t)
    ((none, none) : Option ℤ × Option ℤ)

/-- The name-based `Returns` loop of `extract_position_data`:
`(tokenId, amount0, amount1)`. -/
def mint_named_returns (returns : List CallRet) : Option ℤ × Option ℤ × Option ℤ :=
  returns.foldl
    (fun (r : Option ℤ × Option ℤ × Option ℤ) ret =>
      if ret.name = "tokenId" then
        match ret.value with | .bigInteger n => (some n, r.2.1, r.2.2) | _ => r
      else if ret.name = "amount0" then
        match ret.value with | .bigInteger n => (r.1, some n, r.2.2) | _ => r
      else if ret.name = "amount1" then
        match ret.value with | .bigInteger n => (r.1, r.2.1, some n) | _ => r
      else r)
    ((none, none, none) : Option ℤ × Option ℤ × Option ℤ)

/-- The two-tier amount lookup of `extract_position_data`: by name, then by
the positional indices 2 and 3 when either name-based lookup failed. -/
def mint_amounts (returns : List CallRet) : Option ℤ × Option ℤ :=
  let rets := mint_named_returns returns
  if rets.2.1 = none ∨ rets.2.2 = none then
    (ret_bigInteger_at returns 2 rets.2.1, ret_bigInteger_at returns 3 rets.2.2)
  else (rets.2.1, rets.2.2)

/-- Model of `parser.extract_position_data`. -/
def extract_position_data (position : RawCall) : Option MintPosition :=
  let arguments := position.arguments
  if arguments.length < 2 then none
  else
    let weth_normalized := normalize_address WETH_ADDRESS
    let usdt_normalized := normalize_address USDT_ADDRESS
    let tokens := mint_tokens arguments
    let token0_address := tokens.1
    let token1_address := tokens.2
    let has_weth := token0_address = some weth_normalized ∨ token1_address = some weth_normalized
    let has_usdt := token0_address = some usdt_normalized ∨ token1_address = some usdt_normalized
    if ¬ (has_weth ∧ has_usdt) then none
    else
      let ticks := mint_ticks arguments
      let nft_id := (mint_named_returns position.returns).1
      let amounts := mint_amounts position.returns
      let timestamp := position.blockTime <|> position.txTime
      match ticks.1, ticks.2, nft_id, timestamp with
      | some tick_lower, some tick_upper, some nid, some ts =>
        let is_weth_token0 := token0_address = some weth_normalized
        let is_usdt_token0 := token0_address = some usdt_normalized
        let decimals : ℕ × ℕ :=
          if is_weth_token0 then (WETH_DECIMALS, USDT_DECIMALS)
          else if is_usdt_token0 then (USDT_DECIMALS, WETH_DECIMALS)
          else (18, 6)
        let amount0_afterdecimals := amounts.1.map fun a => (a : ℚ) / 10 ^ decimals.1
        let amount1_afterdecimals := amounts.2.map fun a => (a : ℚ) / 10 ^ decimals.2
        let wu : Option ℚ × Option ℚ :=
          if is_weth_token0 then (amount0_afterdecimals, amount1_afterdecimals)
          else if is_usdt_token0 then (amount1_afterdecimals, amount0_afterdecimals)
          else (none, none)
        some
          { nft_id := nid
            tick_lower := tick_lower
            tick_upper := tick_upper
            timestamp := ts
            token0 := token0_address
            token1 := token1_address
            price_lower := calculate_price_from_tick tick_lower
            price_upper := calculate_price_from_tick tick_upper
            price_lower_afterdecimals :=
              calculate_price_with_decimals tick_lower decimals.1 decimals.2
            price_upper_afterdecimals :=
              calculate_price_with_decimals tick_upper decimals.1 decimals.2
            amount0 := amounts.1
            amount1 := amounts.2
            amount0_afterdecimals := amount0_afterdecimals
            amount1_afterdecimals := amount1_afterdecimals
            amount_weth := wu.1
            amount_usdt := wu.2 }
      | _, _, _, _ => none

/-- Model of `parser.parse_positions` (`none` models a `None` response body, for
which the navigation yields an empty call list). -/
def parse_positions (response_data : Option (List RawCall)) : List MintPosition :=
  (response_data.getD []).filterMap extract_position_data

/-- An `IncreaseLiquidity` event record (legacy shape with a `Log`). -/
structure LiqEvent where
  arguments : List CallArg := []
deriving DecidableEq, Repr

/-- An increase/decrease-liquidity call record. -/
structure LiqCall where
  signatureName : String := ""
  arguments : List CallArg := []
  returns : List CallRet := []
deriving DecidableEq, Repr

/-- The per-identifier accumulator of `parser.parse_liquidity_events`. -/
structure LiqRecord where
  count : ℕ := 0
  total_amount0 : ℤ := 0
  total_amount1 : ℤ := 0
deriving DecidableEq, Repr

/-- Lookup in the insertion-ordered dict `nft_data`. -/
def liqLookup (m : List (ℤ × LiqRecord)) (nft_id : ℤ) : Option LiqRecord :=
  (m.find? fun e => e.1 == nft_id).map (·.2)

/-- Model of `if nft_id not in nft_data: nft_data[nft_id] = zero` followed by an
update of that entry, preserving dict insertion order. -/
def liqUpdate (m : List (ℤ × LiqRecord)) (nft_id : ℤ) (f : LiqRecord → LiqRecord) :
    List (ℤ × LiqRecord) :=
  if m.any (fun e => e.1 == nft_id) then
    m.map fun e => if e.1 = nft_id then (e.1, f e.2) else e
  else m ++ [(nft_id, f {})]

/-- One iteration of the Events loop of `parser.parse_liquidity_events`
(first argument with `Index == 0`; count bumped only if it carries a
`bigInteger`). -/
def liq_event_step (nft_data : List (ℤ × LiqRecord)) (event : LiqEvent) :
    List (ℤ × LiqRecord) :=
  match event.arguments.find? (fun a => a.index == some 0) with
  | some arg =>
    match arg.value with
    | .bigInteger n => liqUpdate nft_data n fun r => { r with count := r.count + 1 }
    | _ => nft_data
  | none => nft_data

/-- Return-value amount extraction of the Calls loop: by name, then by the
positional indices 1 and 2. -/
def liq_call_amounts (returns : List CallRet) : Option ℤ × Option ℤ :=
  let byName := returns.foldl
    (fun (r : Option ℤ × Option ℤ) ret =>
      if ret.name = "amount0" then
        match ret.value with | .bigInteger n => (some n, r.2) | _ => r
      else if ret.name = "amount1" then
        match ret.value with | .bigInteger n => (r.1, some n) | _ => r
      else r)
    ((none, none) : Option ℤ × Option ℤ)
  if byName.1 = none ∨ byName.2 = none then
    (ret_bigInteger_at returns 1 byName.1, ret_bigInteger_at returns 2 byName.2)
  else byName

/-- The per-call record update of the Calls loop: add the amounts for an
increase, subtract them for a decrease, count either way. -/
def liq_apply (call : LiqCall) (r : LiqRecord) : LiqRecord :=
  let is_decrease := call.signatureName = "decreaseLiquidity"
  let amounts := liq_call_amounts call.returns
  if is_decrease then
    { r with
      total_amount0 := r.total_amount0 - amounts.1.getD 0
      total_amount1 := r.total_amount1 - amounts.2.getD 0
      count := r.count + 1 }
  else
    { r with
      count := r.count + 1
      total_amount0 := r.total_amount0 + amounts.1.getD 0
      total_amount1 := r.total_amount1 + amounts.2.getD 0 }

/-- The tokenId extraction of the Calls loop: the first argument with
`Index == 0` that carries a `bigInteger` (the signature is checked by the
caller). -/
def liq_call_nft_id (call : LiqCall) : Option ℤ :=
  (call.arguments.find? fun a =>
      a.index == some 0 && match a.value with | .bigInteger _ => true | _ => false).bind
    fun a => match a.value with | .bigInteger n => some n | _ => none

/-- One iteration of the Calls loop of `parser.parse_liquidity_events`. -/
def liq_call_step (nft_data : List (ℤ × LiqRecord)) (call : LiqCall) :
    List (ℤ × LiqRecord) :=
  if call.signatureName ≠ "increaseLiquidity" ∧ call.signatureName ≠ "decreaseLiquidity" then
    nft_data
  else
    match liq_call_nft_id call with
    | none => nft_data
    | some nft_id => liqUpdate nft_data nft_id (liq_apply call)

/-- Model of `parser.parse_liquidity_events` over already-navigated `Events` and
`Calls` lists. -/
def parse_liquidity_events (events : List LiqEvent) (calls : List LiqCall) :
    List (ℤ × LiqRecord) :=
  calls.foldl liq_call_step (events.foldl liq_event_step [])

/-- Model of `parser.create_final_summary`. -/
def create_final_summary (mint_positions : List MintPosition)
    (liquidity_data : List (ℤ × LiqRecord)) : List Position :=
  mint_positions.filterMap fun position =>
    let liquidity_info := (liqLookup liquidity_data position.nft_id).getD {}
    let token0_address :=
      match position.token0 with | some a => normalize_address a | none => ""
    let is_weth_token0 := token0_address = normalize_address WETH_ADDRESS
    let decimals : ℕ × ℕ :=
      if is_weth_token0 then (WETH_DECIMALS, USDT_DECIMALS)
      else (USDT_DECIMALS, WETH_DECIMALS)
    let total_amount0 := position.amount0.getD 0 + liquidity_info.total_amount0
    let total_amount1 := position.amount1.getD 0 + liquidity_info.total_amount1
    let total_amount0_afterdecimals := (total_amount0 : ℚ) / 10 ^ decimals.1
    let total_amount1_afterdecimals := (total_amount1 : ℚ) / 10 ^ decimals.2
    let wu : ℚ × ℚ :=
      if is_weth_token0 then (total_amount0_afterdecimals, total_amount1_afterdecimals)
      else (total_amount1_afterdecimals, total_amount0_afterdecimals)
    if ¬ validate_amounts (some wu.1) (some wu.2) then none
    else
      let summary_item : Position :=
        { nft_id := some position.nft_id
          create_time := some position.timestamp
          number_of_positions := some (1 + liquidity_info.count)
          price_lower_afterdecimals := some position.price_lower_afterdecimals
          price_upper_afterdecimals := some position.price_upper_afterdecimals
          amount_weth := some wu.1
          amount_usdt := some wu.2 }
      if ¬ validate_position_prices summary_item then none
      else some summary_item

/-! ### recommender_service.py -/

/-- A bin dict copy with `total_liquidity` (and later `trading_volume_24h`)
attached. -/
structure Band extends Bin where
  total_liquidity : ℚ
  trading_volume_24h : Option ℚ := none
deriving DecidableEq, Repr

/-- Model of `recommender_service.calculate_total_liquidity`. -/
def calculate_total_liquidity (b : Bin) : ℚ :=
  let mid_price :=
    if b.priceLower > 0 ∧ b.priceUpper > 0 then (b.priceLower + b.priceUpper) / 2 else 0
  b.amount_usdt + b.amount_weth * mid_price

/-- Stable insertion for a descending sort by `total_liquidity`: an element
inserted from the left of the input precedes existing equal keys. -/
def insertBandDesc (x : Band) : List Band → List Band
  | [] => [x]
  | h :: t =>
    if x.total_liquidity ≥ h.total_liquidity then x :: h :: t else h :: insertBandDesc x t

/-- Model of Python `sorted(key=total_liquidity, reverse=True)`: the unique
stable descending sort by the key. -/
def sortBandsDesc : List Band → List Band
  | [] => []
  | h :: t => insertBandDesc h (sortBandsDesc t)

/-- Model of `bin_copy = bin.copy()` + `bin_copy["total_liquidity"] = ...`. -/
def band_of_bin (b : Bin) : Band :=
  { toBin := b, total_liquidity := calculate_total_liquidity b, trading_volume_24h := none }

/-- Model of `recommender_service.get_top_liquidity_bands`. -/
def get_top_liquidity_bands (bins : List Bin) (top_n : ℕ := 5) : List Band :=
  let bins_with_liquidity := bins.map band_of_bin
  (sortBandsDesc bins_with_liquidity).take top_n

/-- Model of `recommender_service.recommend_top_bands`, returning the
`top_liquidity_bands` list.  The volume capability is modelled as the
already-parsed volume per price interval (`fetch` + `parse_trading_volume`,
with `0.0` for a falsy response, folded into one function). -/
def recommend_top_bands (bins : List Bin) (top_n : ℕ := 5)
    (fetch_volume_func : Option (ℚ → ℚ → ℚ) := none) : List Band :=
  let top_liquidity := get_top_liquidity_bands bins top_n
  match fetch_volume_func with
  | some f =>
    top_liquidity.map fun band =>
      if band.priceLower > 0 ∧ band.priceUpper > 0 then
        { band with trading_volume_24h := some (f band.priceLower band.priceUpper) }
      else
        { band with trading_volume_24h := some 0 }
  | none => top_liquidity

/-! ### app.py -/

def CACHE_EXPIRATION_MINUTES : ℚ := 10

structure Metadata where
  total_positions : ℕ
  total_bins : ℕ
  bins_with_positions : ℕ
  analysis_date : ℚ
  time_range_hours : ℕ := 240
  cache_timestamp : ℚ
  price_filter_lower : Option ℚ := none
  price_filter_upper : Option ℚ := none
deriving DecidableEq, Repr

structure Recommendations where
  top_liquidity_bands : List Band
  metadata : Metadata
deriving DecidableEq, Repr

/-- The dict returned by `get_recommendations_data`: either carries an
`error` key or is a recommendations payload. -/
inductive RecResult where
  | error (msg : String)
  | ok (recs : Recommendations)
deriving DecidableEq, Repr

/-- The module-level `cache` dict. -/
structure Cache where
  bins : Option (List Bin) := none
  data : Option Recommendations := none
  total_positions : ℕ := 0
  timestamp : Option ℚ := none
deriving DecidableEq, Repr

/-- The external collaborators of one request: the mint fetch result, the
liquidity-events fetch result, and the volume source. -/
structure FetchEnv where
  mintResp : Option (List RawCall) := none
  mintStatus : ℕ := 200
  liqEvents : List LiqEvent := []
  liqCalls : List LiqCall := []
  liqStatus : ℕ := 200
  vol : ℚ → ℚ → ℚ := fun _ _ => 0

/-- Model of `app.filter_bins_by_price_range`. -/
def filter_bins_by_price_range (bins : List Bin)
    (price_lower price_upper : Option ℚ) : List Bin :=
  match price_lower, price_upper with
  | none, none => bins
  | some pl, some pu => bins.filter fun b => b.priceLower ≤ pu ∧ b.priceUpper ≥ pl
  | some pl, none => bins.filter fun b => b.priceUpper ≥ pl
  | none, some pu => bins.filter fun b => b.priceLower ≤ pu

def bins_with_positions_count (bins : List Bin) : ℕ :=
  (bins.filter fun b => b.count_nfts > 0).length

/-- The liquidity map of one refresh (`{}` on a failed liquidity fetch). -/
def refresh_liq_map (env : FetchEnv) : List (ℤ × LiqRecord) :=
  if env.liqStatus = 200 then parse_liquidity_events env.liqEvents env.liqCalls else []

/-- The bin list a full refresh computes (before any price filtering). -/
def refresh_bins (env : FetchEnv) : Except String (List Bin) :=
  create_bins_from_data
    (create_final_summary (parse_positions env.mintResp) (refresh_liq_map env)) NUM_BINS

/-- The fetch-and-compute path of `app.get_recommendations_data` (the body
guarded by the cache checks).  Errors raised mid-pipeline are the caught
exceptions returned as `{'error': ...}`; the cache is written only after the
bin pipeline succeeds. -/
def full_refresh (now : ℚ) (env : FetchEnv) (cache : Cache)
    (price_lower price_upper : Option ℚ) : RecResult × Cache :=
  if env.mintStatus ≠ 200 then
    if env.mintResp = none then (.error "Failed to fetch mint positions", cache)
    else (.error ("Error fetching mint positions: " ++ toString env.mintStatus), cache)
  else
    let mint_positions := parse_positions env.mintResp
    if mint_positions = [] then (.error "No mint positions found", cache)
    else
      match refresh_bins env with
      | .error e => (.error e, cache)
      | .ok bins =>
        let cache1 := { cache with
          bins := some bins
          total_positions := mint_positions.length }
        let has_filters := price_lower.isSome || price_upper.isSome
        let filtered_bins :=
          if has_filters then filter_bins_by_price_range bins price_lower price_upper
          else bins
        let top_n := if has_filters then 3 else 5
        let recommendations : Recommendations :=
          { top_liquidity_bands := recommend_top_bands filtered_bins top_n (some env.vol)
            metadata :=
              { total_positions := mint_positions.length
                total_bins := filtered_bins.length
                bins_with_positions := bins_with_positions_count filtered_bins
                analysis_date := now
                cache_timestamp := now
                price_filter_lower := price_lower
                price_filter_upper := price_upper } }
        let cache2 := { cache1 with
          timestamp := some now
          data := if has_filters then cache1.data else some recommendations }
        (.ok recommendations, cache2)

/-- Model of `app.get_recommendations_data`. -/
def get_recommendations_data (now : ℚ) (env : FetchEnv) (cache : Cache)
    (use_cache : Bool) (price_lower price_upper : Option ℚ) : RecResult × Cache :=
  let has_price_filters := price_lower.isSome || price_upper.isSome
  if has_price_filters then
    match cache.bins, cache.timestamp with
    | some bins, some ts =>
      if now - ts < CACHE_EXPIRATION_MINUTES then
        let fbins := filter_bins_by_price_range bins price_lower price_upper
        let recommendations : Recommendations :=
          { top_liquidity_bands := recommend_top_bands fbins 3 (some env.vol)
            metadata :=
              { total_positions := cache.total_positions
                total_bins := fbins.length
                bins_with_positions := bins_with_positions_count fbins
                analysis_date := now
                cache_timestamp := ts
                price_filter_lower := price_lower
                price_filter_upper := price_upper } }
        (.ok recommendations, cache)
      else full_refresh now env cache price_lower price_upper
    | _, _ => full_refresh now env cache price_lower price_upper
  else
    if use_cache then
      match cache.data, cache.timestamp with
      | some d, some ts =>
        if now - ts < CACHE_EXPIRATION_MINUTES then (.ok d, cache)
        else full_refresh now env cache price_lower price_upper
      | _, _ => full_refresh now env cache price_lower price_upper
    else full_refresh now env cache price_lower price_upper

/-- Char-list version of `a.startsWith b`. -/
def beginsWithChars : List Char → List Char → Bool
  | _, [] => true
  | [], _ :: _ => false
  | a :: s, b :: p => a == b && beginsWithChars s p

/-- Char-list substring test (Python `pat in s`). -/
def containsChars : List Char → List Char → Bool
  | [], p => p.isEmpty
  | a :: s, p => beginsWithChars (a :: s) p || containsChars s p

/-- Model of `error_code = 500 if 'fetching' in result['error'].lower() else 404`. -/
def api_error_code (msg : String) : ℕ :=
  if containsChars (str_to_lower msg).toList "fetching".toList then 500 else 404

/-- Model of `app.api_recommendations`: the request boundary, returning the body and
the HTTP status code. -/
def api_recommendations (now : ℚ) (env : FetchEnv) (cache : Cache)
    (use_cache : Bool) (price_lower price_upper : Option ℚ) :
    (RecResult × ℕ) × Cache :=
  let invalid_range : Bool :=
    match price_lower, price_upper with
    | some pl, some pu => pl > pu
    | _, _ => false
  if invalid_range then
    ((.error "Invalid price range: lower price must be less than or equal to upper price",
      400), cache)
  else
    match get_recommendations_data now env cache use_cache price_lower price_upper with
    | (.error e, c) => ((.error e, api_error_code e), c)
    | (.ok r, c) => ((.ok r, 200), c)

/-!
### Heap model of the warm-cache serving path

The Python bins are mutable dicts held by reference both from the cache and
from any list built from it.  To state the frame property (serving a
filtered request from the warm cache mutates no cached dict) we model the
dict store explicitly: a heap is a list of bin objects, a reference is an
index, `bin.copy()` allocates a fresh cell at the end, and attaching a key
is a `List.set` at the cell's index.
-/

/-- A bin dict with its optional recommendation-time keys. -/
structure BinObj where
  bin_index : ℕ := 0
  priceLower : ℚ := 0
  priceUpper : ℚ := 0
  amount_weth : ℚ := 0
  amount_usdt : ℚ := 0
  count_nfts : ℕ := 0
  total_liquidity : Option ℚ := none
  trading_volume_24h : Option ℚ := none
deriving DecidableEq, Repr

abbrev Heap := List BinObj

def heapRead (h : Heap) (r : ℕ) : BinObj := h.getD r {}

/-- Model of `calculate_total_liquidity` reading a dict object. -/
def calculate_total_liquidity_obj (b : BinObj) : ℚ :=
  let mid_price :=
    if b.priceLower > 0 ∧ b.priceUpper > 0 then (b.priceLower + b.priceUpper) / 2 else 0
  b.amount_usdt + b.amount_weth * mid_price

/-- The copy loop of `get_top_liquidity_bands`: `bin_copy = bin.copy()`
plus `bin_copy["total_liquidity"] = ...` allocates a fresh cell. -/
def copy_bins_step (st : Heap × List ℕ) (r : ℕ) : Heap × List ℕ :=
  let b := heapRead st.1 r
  (st.1 ++ [{ b with total_liquidity := some (calculate_total_liquidity_obj b) }],
   st.2 ++ [st.1.length])

/-- Stable descending insertion of references keyed by the object's
`total_liquidity` read through the heap. -/
def insertRefDesc (h : Heap) (x : ℕ) : List ℕ → List ℕ
  | [] => [x]
  | r :: t =>
    if (heapRead h x).total_liquidity.getD 0 ≥ (heapRead h r).total_liquidity.getD 0 then
      x :: r :: t
    else r :: insertRefDesc h x t

/-- Model of `sorted(..., key=total_liquidity, reverse=True)` over references. -/
def sortRefsDesc (h : Heap) : List ℕ → List ℕ
  | [] => []
  | r :: t => insertRefDesc h r (sortRefsDesc h t)

/-- Model of `get_top_liquidity_bands` on the heap: copy every bin, then stable-sort
the copies and keep the first `top_n`. -/
def get_top_liquidity_bands_heap (heap : Heap) (refs : List ℕ) (top_n : ℕ) :
    Heap × List ℕ :=
  let st := refs.foldl copy_bins_step (heap, [])
  (st.1, (sortRefsDesc st.1 st.2).take top_n)

/-- Model of `band["trading_volume_24h"] = ...`: a write to the referenced cell. -/
def attach_volume_heap (vol : ℚ → ℚ → ℚ) (h : Heap) (r : ℕ) : Heap :=
  let b := heapRead h r
  let v := if b.priceLower > 0 ∧ b.priceUpper > 0 then vol b.priceLower b.priceUpper else 0
  h.set r { b with trading_volume_24h := some v }

/-- Model of `recommend_top_bands` on the heap (volume source supplied). -/
def recommend_top_bands_heap (heap : Heap) (refs : List ℕ) (top_n : ℕ)
    (vol : ℚ → ℚ → ℚ) : Heap × List ℕ :=
  let st := get_top_liquidity_bands_heap heap refs top_n
  (st.2.foldl (attach_volume_heap vol) st.1, st.2)

/-- Model of `filter_bins_by_price_range` over references (reads, never writes). -/
def filter_refs_by_price_range (heap : Heap) (refs : List ℕ)
    (price_lower price_upper : Option ℚ) : List ℕ :=
  match price_lower, price_upper with
  | none, none => refs
  | some pl, some pu => refs.filter fun r =>
      (heapRead heap r).priceLower ≤ pu ∧ (heapRead heap r).priceUpper ≥ pl
  | some pl, none => refs.filter fun r => (heapRead heap r).priceUpper ≥ pl
  | none, some pu => refs.filter fun r => (heapRead heap r).priceLower ≤ pu

/-- The warm-cache filtered serving path of `get_recommendations_data`:
shallow list copy of the cached references, price filter, top-3
recommendation with volume attachment. -/
def serve_filtered_from_cache_heap (heap : Heap) (cachedRefs : List ℕ)
    (price_lower price_upper : Option ℚ) (vol : ℚ → ℚ → ℚ) : Heap × List ℕ :=
  recommend_top_bands_heap heap
    (filter_refs_by_price_range heap cachedRefs price_lower price_upper) 3 vol

/-!
## Claim-side definitions for C2

`find_price_range_claimed` follows the claim's words verbatim (fallback
whenever *either* chosen value falls outside the guard-band, on both
sides); it exists only to be compared with the source definition.
`find_price_range_amended_model` is the same text with the guard tests
corrected to the one-sided tests the code actually performs.
-/

/-- The claim's "falls outside the absolute guard-band `[1e-10, 1e10]`". -/
def outside_guard_band (x : ℚ) : Bool :=
  x < MIN_PRICE_THRESHOLD ∨ x > MAX_PRICE_THRESHOLD

/-- Modelled from the claim's words for C2 (two-sided guard-band test on
each chosen value); compared against `find_price_range`. -/
def find_price_range_claimed (positions : List Position) : Except String (ℚ × ℚ) :=
  let all_lowers := present_positive_lowers positions
  let all_uppers := present_positive_uppers positions
  if all_lowers = [] ∨ all_uppers = [] then
    .error "No valid price data found in positions"
  else
    let sl := sortAsc all_lowers
    let su := sortAsc all_uppers
    let min_price := sl.getD ⌊(sl.length : ℚ) * (5 / 100)⌋₊ 0
    let max_price := su.getD (min (su.length - 1) ⌊(su.length : ℚ) * (95 / 100)⌋₊) 0
    if outside_guard_band min_price ∨ outside_guard_band max_price then
      let median_lower := sl.getD (sl.length / 2) 0
      let median_upper := su.getD (su.length / 2) 0
      if outside_guard_band median_lower ∨ outside_guard_band median_upper then
        let reasonable_lowers := all_lowers.filter fun p =>
          MIN_PRICE_THRESHOLD ≤ p ∧ p ≤ MAX_PRICE_THRESHOLD
        let reasonable_uppers := all_uppers.filter fun p =>
          MIN_PRICE_THRESHOLD ≤ p ∧ p ≤ MAX_PRICE_THRESHOLD
        if reasonable_lowers ≠ [] ∧ reasonable_uppers ≠ [] then
          .ok (listMin reasonable_lowers, listMax reasonable_uppers)
        else
          .error "No reasonable price range found in positions"
      else
        .ok (median_lower, median_upper)
    else
      .ok (min_price, max_price)

/-- The C2 claim amended: the fallback triggers exactly when the chosen
lower is below `1e-10` or the chosen upper is above `1e10` (one-sided), and
the medians are accepted exactly when `median_lower ≥ 1e-10` and
`median_upper ≤ 1e10`. -/
def find_price_range_amended_model (positions : List Position) : Except String (ℚ × ℚ) :=
  let all_lowers := present_positive_lowers positions
  let all_uppers := present_positive_uppers positions
  if all_lowers = [] ∨ all_uppers = [] then
    .error "No valid price data found in positions"
  else
    let sl := sortAsc all_lowers
    let su := sortAsc all_uppers
    let min_price := sl.getD ⌊(sl.length : ℚ) * (5 / 100)⌋₊ 0
    let max_price := su.getD (min (su.length - 1) ⌊(su.length : ℚ) * (95 / 100)⌋₊) 0
    if min_price < MIN_PRICE_THRESHOLD ∨ max_price > MAX_PRICE_THRESHOLD then
      let median_lower := sl.getD (sl.length / 2) 0
      let median_upper := su.getD (su.length / 2) 0
      if median_lower ≥ MIN_PRICE_THRESHOLD ∧ median_upper ≤ MAX_PRICE_THRESHOLD then
        .ok (median_lower, median_upper)
      else
        let reasonable_lowers := all_lowers.filter fun p =>
          MIN_PRICE_THRESHOLD ≤ p ∧ p ≤ MAX_PRICE_THRESHOLD
        let reasonable_uppers := all_uppers.filter fun p =>
          MIN_PRICE_THRESHOLD ≤ p ∧ p ≤ MAX_PRICE_THRESHOLD
        if reasonable_lowers ≠ [] ∧ reasonable_uppers ≠ [] then
          .ok (listMin reasonable_lowers, listMax reasonable_uppers)
        else
          .error "No reasonable price range found in positions"
    else
      .ok (min_price, max_price)

/-! ## Percentile index arithmetic -/

theorem floor_five_percent (n : ℕ) : ⌊(n : ℚ) * (5 / 100)⌋₊ = n / 20 := by
  have h : (n : ℚ) * (5 / 100) = (n : ℚ) / ((20 : ℕ) : ℚ) := by push_cast; ring
  rw [h, Nat.floor_div_nat, Nat.floor_natCast]

theorem floor_ninetyfive_percent (n : ℕ) : ⌊(n : ℚ) * (95 / 100)⌋₊ = 19 * n / 20 := by
  have h : (n : ℚ) * (95 / 100) = ((19 * n : ℕ) : ℚ) / ((20 : ℕ) : ℚ) := by push_cast; ring
  rw [h, Nat.floor_div_nat, Nat.floor_natCast]

/-! ## Claim C2 -/

unseal Rat.add Rat.mul Rat.inv Rat.sub in
/-- C2, counterexample: on a single position with lower bound `2·10^10`
(outside the guard-band from above) and upper bound `100`, the code
performs no fallback and returns the out-of-band value, while the claim's
words demand the fallback chain, which here ends in failure. -/
theorem find_price_range_counterexample :
    find_price_range
        [{ price_lower_afterdecimals := some (2 * 10 ^ 10),
           price_upper_afterdecimals := some 100 }] = .ok (2 * 10 ^ 10, 100) ∧
    find_price_range_claimed
        [{ price_lower_afterdecimals := some (2 * 10 ^ 10),
           price_upper_afterdecimals := some 100 }] =
      .error "No reasonable price range found in positions" ∧
    outside_guard_band (2 * 10 ^ 10) = true := by
  refine ⟨by exact rfl, by exact rfl, by exact rfl⟩

/-- C2 amended: `find_price_range` collects present positive bounds, sorts
them, picks the `floor(0.05 n)`-th lower and `min(n-1, floor(0.95 n))`-th
upper, and falls back (median, then in-band min/max, then failure) exactly
when the chosen lower is below `1e-10` or the chosen upper is above
`1e10`; medians are accepted when `median_lower ≥ 1e-10` and
`median_upper ≤ 1e10`. -/
theorem find_price_range_amended :
    ∀ positions : List Position,
      find_price_range positions = find_price_range_amended_model positions := by
  intro positions
  unfold find_price_range find_price_range_amended_model
  simp only [floor_five_percent, floor_ninetyfive_percent]

/-! ## Claim C4 -/

/-- C4: `validate_position_prices` returns `False` exactly when a
decimals-adjusted bound is missing, or `lower ≥ upper`, or
`lower < min_reasonable`, or `upper > max_reasonable`, or either bound
falls outside the fixed absolute guard-band `[1e-10, 1e10]` (independent
of the reasonable-range parameters), or the amounts fail
`validate_amounts`; stated contrapositively as a `True`-characterisation. -/
theorem validate_position_prices_spec :
    ∀ (position : Position) (min_reasonable max_reasonable : ℚ),
      validate_position_prices position min_reasonable max_reasonable = true ↔
        ∃ lo hi, position.price_lower_afterdecimals = some lo ∧
          position.price_upper_afterdecimals = some hi ∧
          lo < hi ∧ min_reasonable ≤ lo ∧ hi ≤ max_reasonable ∧
          MIN_PRICE_THRESHOLD ≤ lo ∧ lo ≤ MAX_PRICE_THRESHOLD ∧
          MIN_PRICE_THRESHOLD ≤ hi ∧ hi ≤ MAX_PRICE_THRESHOLD ∧
          validate_amounts position.amount_weth position.amount_usdt = true := by
  intro position minr maxr
  rcases hlo : position.price_lower_afterdecimals with _ | lo <;>
    rcases hhi : position.price_upper_afterdecimals with _ | hi <;>
      simp only [validate_position_prices, hlo, hhi]
  · simp
  · simp
  · simp
  · constructor
    · intro h
      split_ifs at h with h1 h2 h3
      push_neg at h1 h2 h3
      refine ⟨lo, hi, rfl, rfl, h2, h1.1, h1.2, h3.1, ?_, ?_, h3.2, h⟩
      · linarith [h2, h3.2]
      · linarith [h2, h3.1]
    · rintro ⟨lo', hi', hl', hh', hlt, hminr, hmaxr, g1, g2, g3, g4, hamt⟩
      obtain rfl : lo' = lo := by injection hl' with h; exact h.symm
      obtain rfl : hi' = hi := by injection hh' with h; exact h.symm
      rw [if_neg, if_neg, if_neg]
      · exact hamt
      · push_neg
        exact ⟨g1, g4⟩
      · push_neg
        exact hlt
      · push_neg
        exact ⟨hminr, hmaxr⟩

unseal Rat.add Rat.mul Rat.inv Rat.sub in
/-- C4 witness: a position with bounds `(1000, 2000)` and amounts `(1, 5)`
validates against the default reasonable range. -/
theorem validate_position_prices_spec_witness :
    validate_position_prices
      { price_lower_afterdecimals := some 1000, price_upper_afterdecimals := some 2000,
        amount_weth := some 1, amount_usdt := some 5 } 100 100000 = true :=
  (validate_position_prices_spec
    { price_lower_afterdecimals := some 1000, price_upper_afterdecimals := some 2000,
      amount_weth := some 1, amount_usdt := some 5 } 100 100000).mpr
    ⟨1000, 2000, rfl, rfl, by norm_num, by norm_num, by norm_num,
      by norm_num [MIN_PRICE_THRESHOLD], by norm_num [MAX_PRICE_THRESHOLD],
      by norm_num [MIN_PRICE_THRESHOLD], by norm_num [MAX_PRICE_THRESHOLD],
      by exact rfl⟩

/-! ## Claim C3 -/

unseal Rat.add Rat.mul Rat.inv Rat.sub in
/-- C3, counterexample: a record with both tracked tokens, ticks at indices
3 and 4, a `tokenId` return and a block time, but no recoverable amounts
(neither by name nor at indices 2/3), still yields a position — with both
amounts absent — rather than `None` as the claim states. -/
theorem extract_position_data_counterexample :
    ((extract_position_data
        { arguments := [{ index := some 0, value := .address WETH_ADDRESS },
                        { index := some 1, value := .address USDT_ADDRESS },
                        { index := some 3, value := .bigInteger 0 },
                        { index := some 4, value := .bigInteger 1 }],
          returns := [{ name := "tokenId", value := .bigInteger 42 }],
          blockTime := some "t" }).map fun p => (p.amount0, p.amount1, p.nft_id)) =
      some (none, none, 42) := by
  exact rfl

/-- C3 amended: `extract_position_data` extracts the two raw amounts
preferentially by name (`amount0`, `amount1`) with a fallback to the fixed
positional indices 2 and 3, but missing amounts do not cause rejection:
the result is `None` exactly when there are fewer than two arguments, the
pair does not contain both tracked tokens, a tick (index 3 or 4) is
missing, the `tokenId` is missing, or no timestamp is available. -/
theorem extract_position_data_amended :
    ∀ position : RawCall,
      (extract_position_data position = none ↔
        position.arguments.length < 2 ∨
        ¬ (((mint_tokens position.arguments).1 = some (normalize_address WETH_ADDRESS) ∨
            (mint_tokens position.arguments).2 = some (normalize_address WETH_ADDRESS)) ∧
           ((mint_tokens position.arguments).1 = some (normalize_address USDT_ADDRESS) ∨
            (mint_tokens position.arguments).2 = some (normalize_address USDT_ADDRESS))) ∨
        (mint_ticks position.arguments).1 = none ∨
        (mint_ticks position.arguments).2 = none ∨
        (mint_named_returns position.returns).1 = none ∨
        (position.blockTime <|> position.txTime) = none) ∧
      (∀ p, extract_position_data position = some p →
        p.amount0 = (mint_amounts position.returns).1 ∧
        p.amount1 = (mint_amounts position.returns).2) := by
  intro position
  unfold extract_position_data
  by_cases hlen : position.arguments.length < 2
  · simp [hlen]
  · rw [if_neg hlen]
    by_cases htok :
        (((mint_tokens position.arguments).1 = some (normalize_address WETH_ADDRESS) ∨
          (mint_tokens position.arguments).2 = some (normalize_address WETH_ADDRESS)) ∧
         ((mint_tokens position.arguments).1 = some (normalize_address USDT_ADDRESS) ∨
          (mint_tokens position.arguments).2 = some (normalize_address USDT_ADDRESS)))
    · rw [if_neg (not_not_intro htok)]
      rcases h1 : (mint_ticks position.arguments).1 with _ | tl
      · simp [h1, hlen, htok]
      · rcases h2 : (mint_ticks position.arguments).2 with _ | tu
        · simp [h1, h2, hlen, htok]
        · rcases h3 : (mint_named_returns position.returns).1 with _ | nid
          · simp [h1, h2, h3, hlen, htok]
          · rcases h4 : (position.blockTime <|> position.txTime) with _ | ts
            · simp [h1, h2, h3, h4, hlen, htok]
            · simp only [h1, h2, h3, h4]
              constructor
              · simp [hlen, htok]
              · intro p hp
                obtain rfl := (Option.some.injEq _ _).mp hp.symm
                exact ⟨rfl, rfl⟩
    · rw [if_pos htok]
      simp [hlen, htok]

/-- C3 witness: a record with both tracked tokens and ticks but no
timestamp is rejected, through the amended characterisation. -/
theorem extract_position_data_amended_witness :
    extract_position_data
      { arguments := [{ index := some 0, value := .address WETH_ADDRESS },
                      { index := some 1, value := .address USDT_ADDRESS },
                      { index := some 3, value := .bigInteger 0 },
                      { index := some 4, value := .bigInteger 1 }],
        returns := [{ name := "tokenId", value := .bigInteger 42 }],
        blockTime := none, txTime := none } = none :=
  (extract_position_data_amended
    { arguments := [{ index := some 0, value := .address WETH_ADDRESS },
                    { index := some 1, value := .address USDT_ADDRESS },
                    { index := some 3, value := .bigInteger 0 },
                    { index := some 4, value := .bigInteger 1 }],
      returns := [{ name := "tokenId", value := .bigInteger 42 }],
      blockTime := none, txTime := none }).1.mpr
    (Or.inr (Or.inr (Or.inr (Or.inr (Or.inr rfl)))))

/-! ## Claim C7 -/

/-- C7 (code bug): the request boundary's status heuristic keys on the
substring `'fetching'`, so the mint-fetch failure with a missing response
body — whose message is `"Failed to fetch mint positions"` — is mapped to
404 although it is an upstream fetch failure (the claim and §7 of the spec
demand 500); a fetch failure with a present body maps to 500, and a no-data
condition maps to 404, as claimed. -/
theorem fetch_error_status_code_bug :
    api_recommendations 0 { mintResp := none, mintStatus := 500 } {} true none none =
      ((.error "Failed to fetch mint positions", 404), {}) ∧
    api_recommendations 0 { mintResp := some [], mintStatus := 500 } {} true none none =
      ((.error "Error fetching mint positions: 500", 500), {}) ∧
    api_recommendations 0 { mintResp := some [], mintStatus := 200 } {} true none none =
      ((.error "No mint positions found", 404), {}) := by
  refine ⟨by exact rfl, by exact rfl, by exact rfl⟩

/-! ## Claim C1 -/

/-- C1: for a position whose decimals-adjusted bounds satisfy
`price_lower < price_upper`, `distribute_position_to_bins` adds
`(overlap / (price_upper - price_lower)) × amount` of each token to
exactly the bins whose interval overlaps the position's with positive
length, increments `count_nfts` of each such bin by exactly 1 (regardless
of overlap magnitude), and leaves every non-overlapping bin unchanged;
a position with `price_upper == price_lower` contributes nothing. -/
theorem distribute_position_to_bins_spec :
    ∀ (position : Position) (bins : List Bin) (pl pu : ℚ),
      position.price_lower_afterdecimals = some pl →
      position.price_upper_afterdecimals = some pu →
      ((pl < pu → ∀ i : ℕ,
          (distribute_position_to_bins position bins)[i]? =
            (bins[i]?).map fun b =>
              if 0 < calculate_overlap pl pu b.priceLower b.priceUpper then
                { b with
                  amount_weth := b.amount_weth +
                    calculate_overlap pl pu b.priceLower b.priceUpper / (pu - pl) *
                      position.amount_weth.getD 0
                  amount_usdt := b.amount_usdt +
                    calculate_overlap pl pu b.priceLower b.priceUpper / (pu - pl) *
                      position.amount_usdt.getD 0
                  count_nfts := b.count_nfts + 1 }
              else b)
        ∧ (pu = pl → distribute_position_to_bins position bins = bins)) := by
  intro position bins pl pu hl hu
  constructor
  · intro hlt i
    unfold distribute_position_to_bins
    rw [hl, hu]
    dsimp only
    split
    · rename_i hearly
      have hno : ∀ b ∈ bins, ¬ (0 < calculate_overlap pl pu b.priceLower b.priceUpper) := by
        intro b hb hpos
        have hbmem : b ∈ bins.filter
            (fun b => decide (calculate_overlap pl pu b.priceLower b.priceUpper > 0)) :=
          List.mem_filter.mpr ⟨hb, by simpa using hpos⟩
        rcases hearly with hsum | hnil
        · have hmem2 : calculate_overlap pl pu b.priceLower b.priceUpper ∈
              (bins.filter (fun b =>
                decide (calculate_overlap pl pu b.priceLower b.priceUpper > 0))).map
                (fun b => calculate_overlap pl pu b.priceLower b.priceUpper) :=
            List.mem_map_of_mem _ hbmem
          have hpossum : 0 < ((bins.filter (fun b =>
              decide (calculate_overlap pl pu b.priceLower b.priceUpper > 0))).map
                (fun b => calculate_overlap pl pu b.priceLower b.priceUpper)).sum := by
            apply List.sum_pos
            · intro x hx
              rcases List.mem_map.mp hx with ⟨c, hc, rfl⟩
              have h2 := (List.mem_filter.mp hc).2
              simpa using h2
            · exact List.ne_nil_of_mem hmem2
          rw [hsum] at hpossum
          exact lt_irrefl 0 hpossum
        · rw [hnil] at hbmem
          simp at hbmem
      rcases hbi : bins[i]? with _ | b
      · rfl
      · have hb : b ∈ bins := List.getElem?_mem hbi
        simp only [Option.map_some']
        rw [if_neg (hno b hb)]
    · split
      · rename_i hrange
        exact absurd (sub_eq_zero.mp hrange) (ne_of_gt hlt)
      · rw [List.getElem?_map]
        rcases hbi : bins[i]? with _ | b
        · rfl
        · simp only [Option.map_some']
          by_cases hov : 0 < calculate_overlap pl pu b.priceLower b.priceUpper
          · rw [if_pos hov, if_pos hov]
            simp only [Option.some.injEq, Bin.mk.injEq, true_and, and_true]
            exact ⟨by ring, by ring⟩
          · rw [if_neg hov, if_neg hov]
  · intro heq
    subst heq
    unfold distribute_position_to_bins
    rw [hl, hu]
    dsimp only
    have hfilter : bins.filter
        (fun b => decide (calculate_overlap pu pu b.priceLower b.priceUpper > 0)) = [] := by
      rw [List.filter_eq_nil_iff]
      intro b hb
      simp only [decide_eq_true_eq, not_lt, gt_iff_lt]
      unfold calculate_overlap
      rw [if_pos (le_trans (min_le_left pu b.priceUpper) (le_max_left pu b.priceLower))]
    rw [hfilter]
    simp

unseal Rat.add Rat.mul Rat.inv Rat.sub in
/-- C1 witness: a position `[1, 3]` with amounts `(2, 4)` split across the
bins `[0, 2]` and `[2, 4]` puts half of each amount into the first bin and
counts it once there. -/
theorem distribute_position_to_bins_spec_witness :
    ((1 : ℚ) < 3) ∧
    (distribute_position_to_bins
        { price_lower_afterdecimals := some 1, price_upper_afterdecimals := some 3,
          amount_weth := some 2, amount_usdt := some 4, nft_id := some 5 }
        [{ bin_index := 0, priceLower := 0, priceUpper := 2,
           amount_weth := 0, amount_usdt := 0, count_nfts := 0 },
         { bin_index := 1, priceLower := 2, priceUpper := 4,
           amount_weth := 0, amount_usdt := 0, count_nfts := 0 }])[0]? =
      some { bin_index := 0, priceLower := 0, priceUpper := 2,
             amount_weth := 1, amount_usdt := 2, count_nfts := 1 } := by
  constructor
  · norm_num
  · have h := (distribute_position_to_bins_spec
        { price_lower_afterdecimals := some 1, price_upper_afterdecimals := some 3,
          amount_weth := some 2, amount_usdt := some 4, nft_id := some 5 }
        [{ bin_index := 0, priceLower := 0, priceUpper := 2,
           amount_weth := 0, amount_usdt := 0, count_nfts := 0 },
         { bin_index := 1, priceLower := 2, priceUpper := 4,
           amount_weth := 0, amount_usdt := 0, count_nfts := 0 }]
        1 3 rfl rfl).1 (by norm_num) 0
    rw [h]
    exact rfl

/-! ## Claim C8: stable descending sort by band value -/

theorem perm_insertBandDesc (x : Band) (l : List Band) :
    (insertBandDesc x l).Perm (x :: l) := by
  induction l with
  | nil => exact List.Perm.refl _
  | cons a t ih =>
    rw [insertBandDesc]
    split
    · exact List.Perm.refl _
    · exact List.Perm.trans (List.Perm.cons a ih) (List.Perm.swap x a t)

theorem perm_sortBandsDesc (l : List Band) : (sortBandsDesc l).Perm l := by
  induction l with
  | nil => exact List.Perm.refl _
  | cons a t ih =>
    rw [sortBandsDesc]
    exact List.Perm.trans (perm_insertBandDesc a (sortBandsDesc t)) (List.Perm.cons a ih)

theorem pairwise_insertBandDesc (x : Band) (l : List Band)
    (h : l.Pairwise (fun a b : Band => b.total_liquidity ≤ a.total_liquidity)) :
    (insertBandDesc x l).Pairwise (fun a b : Band => b.total_liquidity ≤ a.total_liquidity) := by
  induction l with
  | nil => simp [insertBandDesc]
  | cons a t ih =>
    rw [List.pairwise_cons] at h
    rw [insertBandDesc]
    split
    · rename_i hge
      rw [List.pairwise_cons]
      refine ⟨?_, List.pairwise_cons.mpr h⟩
      intro b hb
      rcases List.mem_cons.mp hb with rfl | hb
      · exact hge
      · exact le_trans (h.1 b hb) hge
    · rename_i hlt
      rw [List.pairwise_cons]
      refine ⟨?_, ih h.2⟩
      intro b hb
      have hb' := (perm_insertBandDesc x t).mem_iff.mp hb
      rcases List.mem_cons.mp hb' with rfl | hb2
      · exact le_of_lt (lt_of_not_ge hlt)
      · exact h.1 b hb2

theorem pairwise_sortBandsDesc (l : List Band) :
    (sortBandsDesc l).Pairwise (fun a b : Band => b.total_liquidity ≤ a.total_liquidity) := by
  induction l with
  | nil => simp [sortBandsDesc]
  | cons a t ih => exact pairwise_insertBandDesc a (sortBandsDesc t) ih

/-- Stability kernel: inserting from the left puts the new element before
every element of equal key, so the equal-key subsequence is preserved. -/
theorem filter_key_insertBandDesc (v : ℚ) (x : Band) (l : List Band) :
    (insertBandDesc x l).filter (fun b => b.total_liquidity == v) =
      if x.total_liquidity = v then x :: l.filter (fun b => b.total_liquidity == v)
      else l.filter (fun b => b.total_liquidity == v) := by
  induction l with
  | nil =>
    rw [insertBandDesc]
    by_cases hv : x.total_liquidity = v
    · simp [hv]
    · simp [hv]
  | cons a t ih =>
    rw [insertBandDesc]
    split
    · rename_i hge
      simp only [List.filter_cons]
      by_cases hv : x.total_liquidity = v
      · simp [hv]
      · simp [hv]
    · rename_i hlt
      simp only [List.filter_cons, ih]
      by_cases hv : x.total_liquidity = v
      · have hav : (a.total_liquidity == v) = false := by
          simp only [beq_eq_false_iff_ne, ne_eq]
          intro hav
          exact hlt (ge_of_eq (hv.trans hav.symm))
        simp [hv, hav]
      · simp [hv]

theorem filter_key_sortBandsDesc (v : ℚ) (l : List Band) :
    (sortBandsDesc l).filter (fun b => b.total_liquidity == v) =
      l.filter (fun b => b.total_liquidity == v) := by
  induction l with
  | nil => rfl
  | cons a t ih =>
    rw [sortBandsDesc, filter_key_insertBandDesc, List.filter_cons, ih]
    by_cases hv : a.total_liquidity = v
    · simp [hv]
    · simp [hv]

/-- C8: `get_top_liquidity_bands` returns `min k n` bands, sorted
descending by `total_liquidity` (computed as
`amount_usdt + amount_weth × mid_price`, where `mid_price` is the bounds'
midpoint when both bounds are positive and 0 otherwise), and the sort is
stable: bands of equal `total_liquidity` appear in their original input
order (their equal-key subsequence is a prefix of the input's). -/
theorem get_top_liquidity_bands_spec :
    ∀ (bins : List Bin) (k : ℕ),
      (get_top_liquidity_bands bins k).length = min k bins.length
      ∧ (get_top_liquidity_bands bins k).Pairwise
          (fun a b : Band => b.total_liquidity ≤ a.total_liquidity)
      ∧ (∀ band ∈ get_top_liquidity_bands bins k,
          band.total_liquidity = band.amount_usdt + band.amount_weth *
            (if 0 < band.priceLower ∧ 0 < band.priceUpper
             then (band.priceLower + band.priceUpper) / 2 else 0))
      ∧ (∀ v : ℚ,
          (get_top_liquidity_bands bins k).filter (fun band => band.total_liquidity == v) <+:
            (bins.map band_of_bin).filter (fun band => band.total_liquidity == v)) := by
  intro bins k
  refine ⟨?_, ?_, ?_, ?_⟩
  · unfold get_top_liquidity_bands
    rw [List.length_take, (perm_sortBandsDesc (bins.map band_of_bin)).length_eq,
      List.length_map]
  · exact List.Pairwise.sublist (List.take_sublist _ _)
      (pairwise_sortBandsDesc (bins.map band_of_bin))
  · intro band hband
    have h1 : band ∈ sortBandsDesc (bins.map band_of_bin) :=
      List.take_subset _ _ hband
    have h2 : band ∈ bins.map band_of_bin := (perm_sortBandsDesc _).mem_iff.mp h1
    rcases List.mem_map.mp h2 with ⟨b, _, rfl⟩
    rfl
  · intro v
    have hpre : ((sortBandsDesc (bins.map band_of_bin)).take k).filter
        (fun band => band.total_liquidity == v) <+:
          (sortBandsDesc (bins.map band_of_bin)).filter
            (fun band => band.total_liquidity == v) :=
      ( List.take_prefix k _).filter _
    rw [filter_key_sortBandsDesc] at hpre
    exact hpre

unseal Rat.add Rat.mul Rat.inv Rat.sub in
/-- C8 witness: the single bin `[1, 3]` with amounts `(2, 4)` tops its own
list with `total_liquidity = 4 + 2 × 2 = 8`. -/
theorem get_top_liquidity_bands_spec_witness :
    (band_of_bin { bin_index := 0, priceLower := 1, priceUpper := 3,
                   amount_weth := 2, amount_usdt := 4, count_nfts := 0 }) ∈
      get_top_liquidity_bands
        [{ bin_index := 0, priceLower := 1, priceUpper := 3,
           amount_weth := 2, amount_usdt := 4, count_nfts := 0 }] 1 ∧
    (band_of_bin { bin_index := 0, priceLower := 1, priceUpper := 3,
                   amount_weth := 2, amount_usdt := 4, count_nfts := 0 }).total_liquidity =
      (band_of_bin { bin_index := 0, priceLower := 1, priceUpper := 3,
                     amount_weth := 2, amount_usdt := 4, count_nfts := 0 }).amount_usdt +
        (band_of_bin { bin_index := 0, priceLower := 1, priceUpper := 3,
                       amount_weth := 2, amount_usdt := 4, count_nfts := 0 }).amount_weth *
          (if 0 < (band_of_bin { bin_index := 0, priceLower := 1, priceUpper := 3,
                                 amount_weth := 2, amount_usdt := 4,
                                 count_nfts := 0 }).priceLower ∧
              0 < (band_of_bin { bin_index := 0, priceLower := 1, priceUpper := 3,
                                 amount_weth := 2, amount_usdt := 4,
                                 count_nfts := 0 }).priceUpper
           then ((band_of_bin { bin_index := 0, priceLower := 1, priceUpper := 3,
                                amount_weth := 2, amount_usdt := 4,
                                count_nfts := 0 }).priceLower +
                 (band_of_bin { bin_index := 0, priceLower := 1, priceUpper := 3,
                                amount_weth := 2, amount_usdt := 4,
                                count_nfts := 0 }).priceUpper) / 2
           else 0) := by
  have hmem : (band_of_bin { bin_index := 0, priceLower := 1, priceUpper := 3,
                             amount_weth := 2, amount_usdt := 4, count_nfts := 0 }) ∈
      get_top_liquidity_bands
        [{ bin_index := 0, priceLower := 1, priceUpper := 3,
           amount_weth := 2, amount_usdt := 4, count_nfts := 0 }] 1 := by
    exact List.mem_singleton.mpr rfl
  exact ⟨hmem, (get_top_liquidity_bands_spec
    [{ bin_index := 0, priceLower := 1, priceUpper := 3,
       amount_weth := 2, amount_usdt := 4, count_nfts := 0 }] 1).2.2.1 _ hmem⟩

/-! ## Claim C9: order-independence of liquidity-event folding -/

def liq_call_id (call : LiqCall) : Option ℤ :=
  if call.signatureName ≠ "increaseLiquidity" ∧ call.signatureName ≠ "decreaseLiquidity" then
    none
  else liq_call_nft_id call

def liq_call_delta (call : LiqCall) : ℤ × ℤ :=
  let amounts := liq_call_amounts call.returns
  if call.signatureName = "decreaseLiquidity" then
    (-(amounts.1.getD 0), -(amounts.2.getD 0))
  else (amounts.1.getD 0, amounts.2.getD 0)

def liq_contributes (nft_id : ℤ) (call : LiqCall) : Bool :=
  liq_call_id call == some nft_id

def liq_totals (nft_id : ℤ) (calls : List LiqCall) : ℕ × ℤ × ℤ :=
  ((calls.filter (liq_contributes nft_id)).length,
   ((calls.filter (liq_contributes nft_id)).map fun c => (liq_call_delta c).1).sum,
   ((calls.filter (liq_contributes nft_id)).map fun c => (liq_call_delta c).2).sum)

def liq_merge : Option LiqRecord → ℕ × ℤ × ℤ → Option LiqRecord
  | none, t => if t.1 = 0 then none else some ⟨t.1, t.2.1, t.2.2⟩
  | some r, t => some ⟨r.count + t.1, r.total_amount0 + t.2.1, r.total_amount1 + t.2.2⟩

theorem liq_apply_eq (call : LiqCall) (r : LiqRecord) :
    liq_apply call r =
      ⟨r.count + 1, r.total_amount0 + (liq_call_delta call).1,
       r.total_amount1 + (liq_call_delta call).2⟩ := by
  unfold liq_apply liq_call_delta
  by_cases hd : call.signatureName = "decreaseLiquidity"
  · simp [hd, sub_eq_add_neg]
  · simp [hd]

theorem liqLookup_liqUpdate_self (m : List (ℤ × LiqRecord)) (nft_id : ℤ)
    (f : LiqRecord → LiqRecord) :
    liqLookup (liqUpdate m nft_id f) nft_id = some (f ((liqLookup m nft_id).getD {})) := by
  unfold liqLookup liqUpdate
  by_cases hm : m.any (fun x => x.1 == nft_id)
  · rw [if_pos hm]
    rcases List.any_eq_true.mp hm with ⟨x, hx, hpx⟩
    have hsome : (m.find? (fun e => e.1 == nft_id)).isSome :=
      List.find?_isSome.mpr ⟨x, hx, hpx⟩
    rcases hfind : m.find? (fun e => e.1 == nft_id) with _ | a
    · rw [hfind] at hsome; simp at hsome
    · have ha : a.1 = nft_id := by simpa using List.find?_some hfind
      rw [List.find?_map]
      have hcomp : ((fun e : ℤ × LiqRecord => e.1 == nft_id) ∘
          (fun e : ℤ × LiqRecord => if e.1 = nft_id then (e.1, f e.2) else e)) =
          (fun e : ℤ × LiqRecord => e.1 == nft_id) := by
        funext e
        by_cases he : e.1 = nft_id <;> simp [he]
      rw [hcomp, hfind]
      simp [ha]
  · rw [if_neg hm]
    have hnone : m.find? (fun e => e.1 == nft_id) = none := by
      rw [List.find?_eq_none]
      intro x hx hpx
      exact hm (List.any_eq_true.mpr ⟨x, hx, hpx⟩)
    rw [List.find?_append, hnone]
    simp

theorem liqLookup_liqUpdate_other (m : List (ℤ × LiqRecord)) (nft_id nft_id' : ℤ)
    (hne : nft_id' ≠ nft_id) (f : LiqRecord → LiqRecord) :
    liqLookup (liqUpdate m nft_id' f) nft_id = liqLookup m nft_id := by
  unfold liqLookup liqUpdate
  by_cases hm : m.any (fun x => x.1 == nft_id')
  · rw [if_pos hm, List.find?_map]
    have hcomp : ((fun e : ℤ × LiqRecord => e.1 == nft_id) ∘
        (fun e : ℤ × LiqRecord => if e.1 = nft_id' then (e.1, f e.2) else e)) =
        (fun e : ℤ × LiqRecord => e.1 == nft_id) := by
      funext e
      by_cases he : e.1 = nft_id' <;> simp [he]
    rw [hcomp]
    rcases hfind : m.find? (fun e => e.1 == nft_id) with _ | a
    · rw [hfind]
      rfl
    · have ha : a.1 = nft_id := by simpa using List.find?_some hfind
      have hne2 : ¬ (a.1 = nft_id') := by rw [ha]; exact fun h => hne h.symm
      rw [hfind]
      simp [hne2]
  · rw [if_neg hm, List.find?_append]
    have : ([(nft_id', f {})].find? (fun e => e.1 == nft_id)) = none := by
      simp [hne]
    rw [this]
    simp
theorem liqLookup_liq_call_step (m : List (ℤ × LiqRecord)) (c : LiqCall) (nft_id : ℤ) :
    liqLookup (liq_call_step m c) nft_id =
      if liq_contributes nft_id c then
        some (liq_apply c ((liqLookup m nft_id).getD {}))
      else liqLookup m nft_id := by
  unfold liq_call_step liq_contributes liq_call_id
  by_cases hsig : c.signatureName ≠ "increaseLiquidity" ∧ c.signatureName ≠ "decreaseLiquidity"
  · rw [if_pos hsig]
    simp [hsig]
  · rw [if_neg hsig]
    rcases hid : liq_call_nft_id c with _ | nid
    · simp [hsig, hid]
    · by_cases he : nid = nft_id
      · subst he
        rw [liqLookup_liqUpdate_self]
        simp [hsig, hid]
      · rw [liqLookup_liqUpdate_other m nft_id nid he]
        simp [hsig, hid, he]

theorem liqLookup_foldl_calls (calls : List LiqCall) (m : List (ℤ × LiqRecord)) (nft_id : ℤ) :
    liqLookup (calls.foldl liq_call_step m) nft_id =
      liq_merge (liqLookup m nft_id) (liq_totals nft_id calls) := by
  induction calls generalizing m with
  | nil =>
    simp only [List.foldl_nil, liq_totals, List.filter_nil, List.length_nil, List.map_nil,
      List.sum_nil]
    rcases liqLookup m nft_id with _ | r
    · rfl
    · rcases r with ⟨cnt, a0, a1⟩
      simp [liq_merge]
  | cons c calls ih =>
    rw [List.foldl_cons, ih, liqLookup_liq_call_step]
    by_cases hc : liq_contributes nft_id c
    · rw [if_pos hc]
      have ht : liq_totals nft_id (c :: calls) =
          ((liq_totals nft_id calls).1 + 1,
           (liq_call_delta c).1 + (liq_totals nft_id calls).2.1,
           (liq_call_delta c).2 + (liq_totals nft_id calls).2.2) := by
        simp [liq_totals, List.filter_cons, hc, Nat.add_comm]
      rw [ht]
      rcases hlk : liqLookup m nft_id with _ | r
      · rw [liq_apply_eq]
        simp only [Option.getD_none, liq_merge]
        rw [if_neg (by omega)]
        simp only [Option.some.injEq, LiqRecord.mk.injEq]
        refine ⟨by omega, by ring, by ring⟩
      · rw [liq_apply_eq]
        simp only [Option.getD_some, liq_merge, Option.some.injEq, LiqRecord.mk.injEq]
        refine ⟨by omega, by ring, by ring⟩
    · rw [if_neg hc]
      have ht : liq_totals nft_id (c :: calls) = liq_totals nft_id calls := by
        simp [liq_totals, List.filter_cons, hc]
      rw [ht]

/-- C9: `parse_liquidity_events` produces, for every identifier, a count
and net `total_amount0`/`total_amount1` (increases added, decreases
subtracted) that are independent of the order in which the call records
are folded: permuting the call list leaves every lookup unchanged. -/
theorem parse_liquidity_events_perm :
    ∀ (calls calls' : List LiqCall) (nft_id : ℤ),
      calls.Perm calls' →
      liqLookup (parse_liquidity_events [] calls) nft_id =
        liqLookup (parse_liquidity_events [] calls') nft_id := by
  intro calls calls' nft_id hperm
  unfold parse_liquidity_events
  simp only [List.foldl_nil]
  rw [liqLookup_foldl_calls, liqLookup_foldl_calls]
  have h1 : liq_totals nft_id calls = liq_totals nft_id calls' := by
    unfold liq_totals
    have hp := hperm.filter (liq_contributes nft_id)
    rw [hp.length_eq, ((hp.map _).sum_eq : _), ((hp.map _).sum_eq : _)]
  rw [h1]

unseal Rat.add Rat.mul Rat.inv Rat.sub in
/-- C9 witness: an increase and a decrease call for identifier 7,
folded in either order, give the same record. -/
theorem parse_liquidity_events_perm_witness :
    ([{ signatureName := "increaseLiquidity",
        arguments := [{ index := some 0, value := .bigInteger 7 }],
        returns := [{ name := "amount0", value := .bigInteger 5 },
                    { name := "amount1", value := .bigInteger 6 }] },
      { signatureName := "decreaseLiquidity",
        arguments := [{ index := some 0, value := .bigInteger 7 }],
        returns := [{ name := "amount0", value := .bigInteger 1 },
                    { name := "amount1", value := .bigInteger 2 }] }] : List LiqCall).Perm
      [{ signatureName := "decreaseLiquidity",
         arguments := [{ index := some 0, value := .bigInteger 7 }],
         returns := [{ name := "amount0", value := .bigInteger 1 },
                     { name := "amount1", value := .bigInteger 2 }] },
       { signatureName := "increaseLiquidity",
         arguments := [{ index := some 0, value := .bigInteger 7 }],
         returns := [{ name := "amount0", value := .bigInteger 5 },
                     { name := "amount1", value := .bigInteger 6 }] }] ∧
    liqLookup (parse_liquidity_events []
      [{ signatureName := "increaseLiquidity",
         arguments := [{ index := some 0, value := .bigInteger 7 }],
         returns := [{ name := "amount0", value := .bigInteger 5 },
                     { name := "amount1", value := .bigInteger 6 }] },
       { signatureName := "decreaseLiquidity",
         arguments := [{ index := some 0, value := .bigInteger 7 }],
         returns := [{ name := "amount0", value := .bigInteger 1 },
                     { name := "amount1", value := .bigInteger 2 }] }]) 7 =
      liqLookup (parse_liquidity_events []
        [{ signatureName := "decreaseLiquidity",
           arguments := [{ index := some 0, value := .bigInteger 7 }],
           returns := [{ name := "amount0", value := .bigInteger 1 },
                       { name := "amount1", value := .bigInteger 2 }] },
         { signatureName := "increaseLiquidity",
           arguments := [{ index := some 0, value := .bigInteger 7 }],
           returns := [{ name := "amount0", value := .bigInteger 5 },
                       { name := "amount1", value := .bigInteger 6 }] }]) 7 := by
  refine ⟨by decide, parse_liquidity_events_perm _ _ 7 (by decide)⟩

/-! ## Claim C10: frame property of warm-cache serving -/

theorem copy_bins_foldl_spec (refs : List ℕ) :
    ∀ st : Heap × List ℕ,
      st.1 <+: (refs.foldl copy_bins_step st).1 ∧
      (∀ r ∈ (refs.foldl copy_bins_step st).2, r ∈ st.2 ∨ st.1.length ≤ r) := by
  induction refs with
  | nil => exact fun st => ⟨List.prefix_refl _, fun r hr => Or.inl hr⟩
  | cons a refs ih =>
    intro st
    have hstep : copy_bins_step st a =
        (st.1 ++ [{ heapRead st.1 a with
          total_liquidity := some (calculate_total_liquidity_obj (heapRead st.1 a)) }],
         st.2 ++ [st.1.length]) := rfl
    rcases ih (copy_bins_step st a) with ⟨hpre, hmem⟩
    constructor
    · calc st.1 <+: (copy_bins_step st a).1 := by rw [hstep]; exact ⟨_, rfl⟩
        _ <+: (refs.foldl copy_bins_step (copy_bins_step st a)).1 := hpre
    · intro r hr
      rcases hmem r (by simpa [List.foldl_cons] using hr) with h | h
      · rw [hstep] at h
        rcases List.mem_append.mp h with h2 | h2
        · exact Or.inl h2
        · simp only [List.mem_singleton] at h2
          exact Or.inr (le_of_eq h2.symm)
      · rw [hstep] at h
        simp only [List.length_append, List.length_cons, List.length_nil] at h
        exact Or.inr (by omega)

theorem perm_insertRefDesc (h : Heap) (x : ℕ) (l : List ℕ) :
    (insertRefDesc h x l).Perm (x :: l) := by
  induction l with
  | nil => exact List.Perm.refl _
  | cons a t ih =>
    rw [insertRefDesc]
    split
    · exact List.Perm.refl _
    · exact List.Perm.trans (List.Perm.cons a ih) (List.Perm.swap x a t)

theorem perm_sortRefsDesc (h : Heap) (l : List ℕ) : (sortRefsDesc h l).Perm l := by
  induction l with
  | nil => exact List.Perm.refl _
  | cons a t ih =>
    rw [sortRefsDesc]
    exact List.Perm.trans (perm_insertRefDesc h a (sortRefsDesc h t)) (List.Perm.cons a ih)

theorem getD_attach_volume_ne (vol : ℚ → ℚ → ℚ) (h : Heap) (r i : ℕ) (hne : i ≠ r) :
    (attach_volume_heap vol h r).getD i {} = h.getD i {} := by
  unfold attach_volume_heap
  rw [List.getD_eq_getElem?_getD, List.getD_eq_getElem?_getD,
    List.getElem?_set_ne (fun hh => hne hh.symm)]

theorem foldl_attach_preserve (vol : ℚ → ℚ → ℚ) (tops : List ℕ) :
    ∀ (h : Heap) (n : ℕ), (∀ r ∈ tops, n ≤ r) → ∀ i < n,
      (tops.foldl (attach_volume_heap vol) h).getD i {} = h.getD i {} := by
  induction tops with
  | nil => intro h n _ i _; rfl
  | cons a t ih =>
    intro h n htops i hi
    rw [List.foldl_cons, ih (attach_volume_heap vol h a) n
      (fun r hr => htops r (List.mem_cons_of_mem a hr)) i hi]
    exact getD_attach_volume_ne vol h a i
      (by have := htops a (List.mem_cons_self a t); omega)

/-- C10: serving a price-filtered recommendation from the warm cache never
mutates the cached state: every selected bin is copied into a fresh cell
before `total_liquidity` and `trading_volume_24h` are attached, so every
heap cell that existed before the request holds exactly the fields and
values it held before. -/
theorem serve_filtered_from_cache_frame :
    ∀ (heap : Heap) (cachedRefs : List ℕ) (price_lower price_upper : Option ℚ)
      (vol : ℚ → ℚ → ℚ) (i : ℕ),
      i < heap.length →
      ((serve_filtered_from_cache_heap heap cachedRefs price_lower price_upper vol).1).getD
          i {} = heap.getD i {} := by
  intro heap cachedRefs pl pu vol i hi
  unfold serve_filtered_from_cache_heap recommend_top_bands_heap get_top_liquidity_bands_heap
  dsimp only
  set refs := filter_refs_by_price_range heap cachedRefs pl pu with hrefs
  rcases copy_bins_foldl_spec refs (heap, []) with ⟨hpre, hmem⟩
  set st := refs.foldl copy_bins_step (heap, []) with hst
  have htops : ∀ r ∈ (sortRefsDesc st.1 st.2).take 3, heap.length ≤ r := by
    intro r hr
    have h1 : r ∈ sortRefsDesc st.1 st.2 := List.take_subset _ _ hr
    have h2 : r ∈ st.2 := (perm_sortRefsDesc st.1 st.2).mem_iff.mp h1
    rcases hmem r h2 with h3 | h3
    · simp at h3
    · exact h3
  rw [foldl_attach_preserve vol _ st.1 heap.length htops i hi]
  rcases hpre with ⟨t, hpt⟩
  rw [← hpt, List.getD_eq_getElem?_getD, List.getD_eq_getElem?_getD,
    List.getElem?_append_left hi]

unseal Rat.add Rat.mul Rat.inv Rat.sub in
/-- C10 witness: a two-cell heap served with a lower-bound filter keeps
cell 0 intact. -/
theorem serve_filtered_from_cache_frame_witness :
    (0 < ([{ bin_index := 0, priceLower := 0, priceUpper := 2 },
           { bin_index := 1, priceLower := 2, priceUpper := 4 }] : Heap).length) ∧
    ((serve_filtered_from_cache_heap
        [{ bin_index := 0, priceLower := 0, priceUpper := 2 },
         { bin_index := 1, priceLower := 2, priceUpper := 4 }]
        [0, 1] (some 1) none (fun _ _ => 7)).1).getD 0 {} =
      ([{ bin_index := 0, priceLower := 0, priceUpper := 2 },
        { bin_index := 1, priceLower := 2, priceUpper := 4 }] : Heap).getD 0 {} :=
  ⟨by decide, serve_filtered_from_cache_frame
      [{ bin_index := 0, priceLower := 0, priceUpper := 2 },
       { bin_index := 1, priceLower := 2, priceUpper := 4 }]
      [0, 1] (some 1) none (fun _ _ => 7) 0 (by decide)⟩

/-! ## Claim C5: warm-cache filtered serving -/

/-- C5: with at least one price filter given, cached bins present and
younger than the 10-minute TTL, the result is computed from the cached
bins — filtered by the half-open overlap rules and re-ranked top-3 with
fresh metadata — and is independent of the mint/liquidity fetch
collaborators and the cache-bypass flag (no upstream refetch). -/
theorem warm_cache_filtered_serve :
    ∀ (now ts : ℚ) (env env' : FetchEnv) (cache : Cache) (use_cache use_cache' : Bool)
      (price_lower price_upper : Option ℚ) (bs : List Bin),
      (price_lower.isSome ∨ price_upper.isSome) →
      cache.bins = some bs →
      cache.timestamp = some ts →
      now - ts < CACHE_EXPIRATION_MINUTES →
      env.vol = env'.vol →
      (get_recommendations_data now env cache use_cache price_lower price_upper =
         (.ok { top_liquidity_bands :=
                  recommend_top_bands (filter_bins_by_price_range bs price_lower price_upper)
                    3 (some env.vol)
                metadata :=
                  { total_positions := cache.total_positions
                    total_bins :=
                      (filter_bins_by_price_range bs price_lower price_upper).length
                    bins_with_positions :=
                      bins_with_positions_count
                        (filter_bins_by_price_range bs price_lower price_upper)
                    analysis_date := now
                    cache_timestamp := ts
                    price_filter_lower := price_lower
                    price_filter_upper := price_upper } }, cache)
       ∧ get_recommendations_data now env cache use_cache price_lower price_upper =
           get_recommendations_data now env' cache use_cache' price_lower price_upper
       ∧ filter_bins_by_price_range bs price_lower price_upper = bs.filter fun b =>
           match price_lower, price_upper with
           | some pl, some pu => decide (b.priceLower ≤ pu ∧ b.priceUpper ≥ pl)
           | some pl, none => decide (b.priceUpper ≥ pl)
           | none, some pu => decide (b.priceLower ≤ pu)
           | none, none => true) := by
  intro now ts env env' cache uc uc' pl pu bs hf hb ht hwarm hvol
  have hfb : (pl.isSome || pu.isSome) = true := by
    rcases hf with h | h <;> simp [h]
  have main : ∀ (e : FetchEnv) (u : Bool), e.vol = env.vol →
      get_recommendations_data now e cache u pl pu =
        (.ok { top_liquidity_bands :=
                 recommend_top_bands (filter_bins_by_price_range bs pl pu) 3 (some env.vol)
               metadata :=
                 { total_positions := cache.total_positions
                   total_bins := (filter_bins_by_price_range bs pl pu).length
                   bins_with_positions :=
                     bins_with_positions_count (filter_bins_by_price_range bs pl pu)
                   analysis_date := now
                   cache_timestamp := ts
                   price_filter_lower := pl
                   price_filter_upper := pu } }, cache) := by
    intro e u hev
    unfold get_recommendations_data
    rw [hb, ht, hev]
    simp only [hfb, if_true]
    rw [if_pos hwarm]
  refine ⟨main env uc rfl, ?_, ?_⟩
  · rw [main env uc rfl, main env' uc' hvol.symm]
  · cases pl <;> cases pu <;> simp [filter_bins_by_price_range]

unseal Rat.add Rat.mul Rat.inv Rat.sub in
/-- C5 witness: with warm cached bins, two requests against entirely
different fetch collaborators (one an outright fetch failure) but the same
volume source produce the same result. -/
theorem warm_cache_filtered_serve_witness :
    get_recommendations_data 1
        { mintResp := none, mintStatus := 500, vol := fun _ _ => 7 }
        { bins := some [{ bin_index := 0, priceLower := 0, priceUpper := 2,
                          amount_weth := 1, amount_usdt := 1, count_nfts := 1 }],
          data := none, total_positions := 3, timestamp := some 0 }
        true (some 1) none =
      get_recommendations_data 1
        { mintResp := some [], mintStatus := 200, vol := fun _ _ => 7 }
        { bins := some [{ bin_index := 0, priceLower := 0, priceUpper := 2,
                          amount_weth := 1, amount_usdt := 1, count_nfts := 1 }],
          data := none, total_positions := 3, timestamp := some 0 }
        false (some 1) none :=
  (warm_cache_filtered_serve 1 0
    { mintResp := none, mintStatus := 500, vol := fun _ _ => 7 }
    { mintResp := some [], mintStatus := 200, vol := fun _ _ => 7 }
    { bins := some [{ bin_index := 0, priceLower := 0, priceUpper := 2,
                      amount_weth := 1, amount_usdt := 1, count_nfts := 1 }],
      data := none, total_positions := 3, timestamp := some 0 }
    true false (some 1) none
    [{ bin_index := 0, priceLower := 0, priceUpper := 2,
       amount_weth := 1, amount_usdt := 1, count_nfts := 1 }]
    (Or.inl rfl) rfl rfl (by norm_num [CACHE_EXPIRATION_MINUTES]) rfl).2.1

/-! ## Claim C6: filtered refresh caches only unfiltered state -/

theorem full_refresh_data_eq (now : ℚ) (env : FetchEnv) (cache : Cache)
    (price_lower price_upper : Option ℚ) (hf : price_lower.isSome ∨ price_upper.isSome) :
    ((full_refresh now env cache price_lower price_upper).2).data = cache.data := by
  have hfb : (price_lower.isSome || price_upper.isSome) = true := by
    rcases hf with h | h <;> simp [h]
  unfold full_refresh
  split
  · split <;> rfl
  · split
    · dsimp only
      split <;> rfl
    · dsimp only
      split
      · rfl
      · simp [hfb]

/-- C6: a full refresh triggered by a price-filtered request stores the
unfiltered bin list and the raw position count in the cache, and never
writes the filtered recommendation into the cache's recommendation slot:
for every price-filtered request the recommendation slot is left exactly
as it was. -/
theorem refresh_never_caches_filtered :
    ∀ (now : ℚ) (env : FetchEnv) (cache : Cache) (use_cache : Bool)
      (price_lower price_upper : Option ℚ),
      (price_lower.isSome ∨ price_upper.isSome) →
      ((∀ recs c', full_refresh now env cache price_lower price_upper = (.ok recs, c') →
          ∃ bins, refresh_bins env = .ok bins ∧ c'.bins = some bins ∧
            c'.total_positions = (parse_positions env.mintResp).length ∧
            c'.data = cache.data)
       ∧ ((get_recommendations_data now env cache use_cache price_lower price_upper).2).data =
           cache.data) := by
  intro now env cache uc pl pu hf
  have hfb : (pl.isSome || pu.isSome) = true := by
    rcases hf with h | h <;> simp [h]
  constructor
  · intro recs c' h
    unfold full_refresh at h
    split at h
    · split at h <;> exact absurd (congrArg Prod.fst h) (by simp)
    · split at h
      · dsimp only at h
        split at h <;> exact absurd (congrArg Prod.fst h) (by simp)
      · rename_i bins hbins
        dsimp only at h
        split at h
        · exact absurd (congrArg Prod.fst h) (by simp)
        · refine ⟨bins, hbins, ?_⟩
          have hc' := congrArg Prod.snd h
          dsimp only at hc'
          rw [← hc']
          simp [hfb]
  · unfold get_recommendations_data
    simp only [hfb, if_true]
    split
    · split
      · rfl
      · exact full_refresh_data_eq now env cache pl pu hf
    · exact full_refresh_data_eq now env cache pl pu hf

/-- C6 witness: a filtered request against an empty cache (which forces the
refresh path) leaves the recommendation slot untouched. -/
theorem refresh_never_caches_filtered_witness :
    ((get_recommendations_data 1 { mintResp := none, mintStatus := 500 } {} true
        (some 1) none).2).data = ({} : Cache).data :=
  (refresh_never_caches_filtered 1 { mintResp := none, mintStatus := 500 } {} true
    (some 1) none (Or.inl rfl)).2

end UniswapLEMM
